import Mathlib

/-!
Verification development for the pdp-analytics productivity pipeline.

The definitions below are a shallow embedding of the Python sources:

* `src/domain/value_objects/email.py`         → `emailValid`, `mkEmail`
* `src/domain/entities/pdp_record.py`         → `PDPRec`
* `src/domain/entities/call_data.py`          → `CallRec`
* `src/adapters/output_adapters/persistence/bigquery_pdp_repository.py`
                                              → `RawRow`, `mapRowToEntity`, `mapRowsToEntities`
* `src/application/use_cases/process_pdp_data.py` (`_enrich_with_call_data`, `execute`)
                                              → `enrichGroup`, `enrichWithCallData`, `executeModel`
* `src/application/services/excel_service.py` (`_prepare_heatmap_data`)
                                              → `cellValue`, `buildRow`, `prepareHeatmapData`
* `src/application/dto/pdp_dto.py`            → `ResponseDTO`

Numeric conventions: Python ints become `Nat`/`Int`; all real arithmetic is
embedded into exact rationals `ℚ`.  Python's `round` (banker's rounding,
round-half-to-even) is modelled exactly by `pyRound2`.  The IEEE-double
arithmetic of the enrichment's weight and product (process_pdp_data.py
lines 111-112) is modelled exactly by `rnd53`, binary64 round-to-nearest,
ties-to-even at 53 significant bits with unbounded exponent (no
overflow/underflow occurs at this pipeline's magnitudes).  The heatmap's
float arithmetic stays in plain rationals; its concrete inputs are chosen so
that every value is far from a rounding tie, where float and exact
computation agree.
-/

/-- A calendar date, as a `(year, month, day)` triple.  The pipeline only
compares dates for equality (grouping keys) and extracts the day of month,
so no calendar arithmetic is needed. -/
abbrev PDate := ℕ × ℕ × ℕ

namespace PDP

/-! ## Email value object (`src/domain/value_objects/email.py`) -/

/-- Character class `[a-zA-Z0-9._%+-]` of the local part of the e-mail
regex in `Email.__post_init__`. -/
def isLocalChar (c : Char) : Bool :=
  c.isAlpha || c.isDigit || c = '.' || c = '_' || c = '%' || c = '+' || c = '-'

/-- Character class `[a-zA-Z0-9.-]` of the domain part of the e-mail regex. -/
def isDomainChar (c : Char) : Bool :=
  c.isAlpha || c.isDigit || c = '.' || c = '-'

/-- Splits a character list on a separator character; mirrors how the anchored
regex decomposes the candidate string at `@` and at dots.  `splitOnChar c l`
always returns a non-empty list of (possibly empty) chunks. -/
def splitOnChar (c : Char) : List Char → List (List Char)
  | [] => [[]]
  | x :: xs =>
    match splitOnChar c xs with
    | [] => [[]]
    | h :: t => if x = c then [] :: h :: t else (x :: h) :: t

/-- Decides the anchored regex `^[a-zA-Z0-9._%+-]+@[a-zA-Z0-9.-]+\.[a-zA-Z]{2,}$`
of `Email.__post_init__` (email.py line 17).  The string must be
`local@domain` with exactly one `@`; the domain must contain a dot whose
suffix (the part after the last dot, since `[a-zA-Z]{2,}` admits no dot) is
at least two alphabetic characters, preceded by a non-empty run of domain
characters.  (The Python `$` would also admit one trailing newline; no input
considered here contains a newline.) -/
def emailValid (s : String) : Bool :=
  match splitOnChar '@' s.data with
  | [lp, dp] =>
    !lp.isEmpty && lp.all isLocalChar &&
    (let rd := dp.reverse
     let tldR := rd.takeWhile (· ≠ '.')
     match rd.dropWhile (· ≠ '.') with
     | '.' :: midR =>
       decide (2 ≤ tldR.length) && tldR.all Char.isAlpha &&
       !midR.isEmpty && midR.all isDomainChar
     | _ => false)
  | _ => false

/-- The `Email` value object: a string that passed `__post_init__`. -/
structure EmailV where
  value : String
  deriving Repr, DecidableEq

/-- Constructing an `Email`: `__post_init__` raises `ValueError` (modelled by
`Except.error`) on the empty string or on a regex mismatch (email.py
lines 12-20). -/
def mkEmail (s : String) : Except String EmailV :=
  if s = "" then .error "Email cannot be empty"
  else if emailValid s then .ok ⟨s⟩
  else .error ("Invalid email format: " ++ s)

/-! ## Records -/

/-- The fields of `PDPRecord` (pdp_record.py) that the enrichment step
reads or writes.  `email` holds `agent_email.value`; `connectedSeconds`
models `total_connected_seconds : Optional[int]` (`none` = Python `None`). -/
structure PDPRec where
  email : String
  date : PDate
  pdpCount : ℕ
  connectedSeconds : Option ℕ := none
  deriving Repr, DecidableEq

/-- The fields of `AgentCallData` (call_data.py) used by the enrichment:
agent e-mail value, call date and `total_connected_seconds`. -/
structure CallRec where
  email : String
  date : PDate
  seconds : ℕ
  deriving Repr, DecidableEq

/-- Modelled from the spec: `PDPRecord.with_connected_time` is called at
process_pdp_data.py line 113 but is defined nowhere under `src/`; per spec
§4.1 the Reconciler produces the same observation with its apportioned
`connected_seconds` attached (immutable functional update). -/
def withConnectedTime (r : PDPRec) (secs : ℕ) : PDPRec :=
  { r with connectedSeconds := some secs }

/-- Modelled from the spec: the per-hour rate derivation (spec §4.2
MetricCalculator, surfaced as `pdp_per_hour` on `PDPRecord`) has no
definition under `src/`.  Null or zero connected seconds give rate `0`;
otherwise the rate is `activity_count / (connected_seconds / 3600)`. -/
def computeRate (activityCount : ℕ) (connectedSeconds : Option ℕ) : ℚ :=
  match connectedSeconds with
  | none => 0
  | some s => if s = 0 then 0 else (activityCount : ℚ) / ((s : ℚ) / 3600)

/-! ## Row mapping (`bigquery_pdp_repository.py`) -/

/-- A raw warehouse row, restricted to the fields `_map_row_to_entity`
feeds into the constructors that can fail (`usuario` → `Email`) or that the
enrichment later reads. -/
structure RawRow where
  usuario : String
  fecha : PDate
  cantPdp : ℕ
  deriving Repr, DecidableEq

/-- `_map_row_to_entity` (bigquery_pdp_repository.py lines 47-68): builds the
entity, propagating the `ValueError` of `Email` construction. -/
def mapRowToEntity (row : RawRow) : Except String PDPRec :=
  (mkEmail row.usuario).map fun e =>
    { email := e.value, date := row.fecha, pdpCount := row.cantPdp,
      connectedSeconds := none }

/-- The list comprehension `[self._map_row_to_entity(row) for row in rows]`
(bigquery_pdp_repository.py line 41): rows are mapped in order and the first
`ValueError` aborts the whole batch (it is caught only by the surrounding
`except`, which re-raises as `RepositoryException`). -/
def mapRowsToEntities : List RawRow → Except String (List PDPRec)
  | [] => .ok []
  | r :: rs =>
    match mapRowToEntity r with
    | .error e => .error e
    | .ok p =>
      match mapRowsToEntities rs with
      | .error e => .error e
      | .ok ps => .ok (p :: ps)

/-! ## Generic grouping helpers

Python's `dict` / `defaultdict` iterate keys in first-insertion order, and
each group collects its members in input order. -/

/-- The distinct keys of `l` under `key`, in first-occurrence order — the
iteration order of a Python dict keyed by `key` and filled from `l`. -/
def firstKeys {α κ : Type} [DecidableEq κ] (key : α → κ) : List α → List κ
  | [] => []
  | x :: xs => key x :: (firstKeys key xs).filter (fun k => k ≠ key x)

/-- The members of `l` whose key is `k`, in input order — the group a
`defaultdict(list)` accumulates under `k`. -/
def keyGroup {α κ : Type} [DecidableEq κ] (key : α → κ) (k : κ) (l : List α) : List α :=
  l.filter (fun a => key a = k)

/-! ## Rounding

Python's built-in `round(x, 2)` uses round-half-to-even (banker's rounding);
`pyRound2` is its exact-rational counterpart.  `rnd53` is the exact model of
binary64 (IEEE double) round-to-nearest, ties-to-even at 53 significant
bits, which CPython applies to `int / int` true division (correctly rounded),
to `int` → `float` conversion, and to each `float` multiplication. -/

/-- The floor of a rational, computed on its reduced representation (the
denominator is positive, so flooring division of the numerator by the
denominator is the floor; `ratFloor_eq_floor` below). -/
def ratFloor (q : ℚ) : ℤ := q.num.fdiv q.den

/-- Rounds a rational to the nearest integer, ties to the even integer —
the rule of Python's built-in `round` and of IEEE round-to-nearest-even
applied to a scaled significand. -/
def rndHalfEven (x : ℚ) : ℤ :=
  let f := ratFloor x
  let r := x - f
  if r < 1 / 2 then f
  else if 1 / 2 < r then f + 1
  else if f % 2 = 0 then f else f + 1

/-- Exact model of Python's `round(x, 2)`. -/
def pyRound2 (x : ℚ) : ℚ :=
  (rndHalfEven (100 * x) : ℚ) / 100

/-- Base-two logarithm on naturals by structural recursion on a fuel bound,
so that the kernel can evaluate it. -/
def log2Fuel : ℕ → ℕ → ℕ
  | 0, _ => 0
  | fuel + 1, n => if 2 ≤ n then log2Fuel fuel (n / 2) + 1 else 0

/-- `natLog2 n` is ⌊log₂ n⌋ for `n ≥ 1` (`natLog2_correct`). -/
def natLog2 (n : ℕ) : ℕ := log2Fuel n n

/-- `floorLog2 q` is ⌊log₂ q⌋ for a positive rational
(`floorLog2_correct`): the numerator/denominator logarithms bracket it to
two candidates and a comparison picks the right one. -/
def floorLog2 (q : ℚ) : ℤ :=
  if (2 : ℚ) ^ ((natLog2 q.num.toNat : ℤ) - (natLog2 q.den : ℤ)) ≤ q
  then (natLog2 q.num.toNat : ℤ) - (natLog2 q.den : ℤ)
  else (natLog2 q.num.toNat : ℤ) - (natLog2 q.den : ℤ) - 1

/-- Exact model of rounding a real (here: rational) value to the nearest
binary64 double, ties to even: the value is scaled into `[2^52, 2^53)`,
rounded half-to-even to an integer significand, and scaled back.  The
exponent is unbounded — binary64 overflow/underflow cannot occur at the
magnitudes this pipeline handles (counts, seconds and their quotients), where
this model coincides with IEEE binary64 arithmetic. -/
def rnd53 (x : ℚ) : ℚ :=
  if x = 0 then 0
  else (rndHalfEven (x / (2 : ℚ) ^ (floorLog2 |x| - 52)) : ℚ)
    * (2 : ℚ) ^ (floorLog2 |x| - 52)

/-! ## Enrichment (`_enrich_with_call_data`, process_pdp_data.py lines 87-117) -/

/-- Python's `str.lower()`, applied characterwise; on the ASCII e-mail
strings of this pipeline it agrees with Python's Unicode lowering. -/
def pyLower (s : String) : String := ⟨s.data.map Char.toLower⟩

/-- Grouping key of the enrichment join: `(agent_email.value.lower(), date)`
(lines 92 and 99). -/
def enrichKeyP (r : PDPRec) : String × PDate := (pyLower r.email, r.date)

/-- Key of a call record in `call_lookup` (line 92). -/
def enrichKeyC (c : CallRec) : String × PDate := (pyLower c.email, c.date)

/-- `call_lookup` built by dict comprehension (lines 91-93): when several
call records share a key the later one wins, hence the reversed search. -/
def lookupCall (calls : List CallRec) (k : String × PDate) : Option CallRec :=
  calls.reverse.find? (fun c => enrichKeyC c = k)

/-- The apportioned seconds of one group member (lines 111-112):
`weight = pdp_count / total_pdps if total_pdps > 0 else 0` and
`int(total_seconds * weight)`, evaluated the way CPython does — in IEEE
doubles: the `int / int` true division is the correctly rounded double of the
exact quotient, the `int * float` product converts `total_seconds` to a
double and multiplies with one more rounding, and `int(...)` truncates toward
zero (the floor, as everything is non-negative).  This float pipeline can
fall below the exact value: `int(600 * (11/15))` is `439`, not `440`. -/
def apportion (S cnt tot : ℕ) : ℕ :=
  if 0 < tot then
    (ratFloor (rnd53 (rnd53 (S : ℚ) * rnd53 ((cnt : ℚ) / (tot : ℚ))))).toNat
  else 0

/-- The body of the per-key loop (lines 103-115): a matched group is mapped
through apportionment, an unmatched group is extended unchanged. -/
def enrichGroup (call : Option CallRec) (grp : List PDPRec) : List PDPRec :=
  match call with
  | some c =>
    grp.map fun r =>
      withConnectedTime r (apportion c.seconds r.pdpCount (grp.map PDPRec.pdpCount).sum)
  | none => grp

/-- `_enrich_with_call_data`: group the productivity records by
`(lowercased email, date)` in first-insertion order and enrich each group
against the call lookup. -/
def enrichWithCallData (pdpRecords : List PDPRec) (callData : List CallRec) : List PDPRec :=
  (firstKeys enrichKeyP pdpRecords).flatMap fun k =>
    enrichGroup (lookupCall callData k) (keyGroup enrichKeyP k pdpRecords)

/-! ## Heatmap construction (`_prepare_heatmap_data`, excel_service.py lines 117-198)

`_prepare_heatmap_data` reads `dni`, `agent_name`, `record_date.day`, `hour`
and `pdp_count` from each record it is given (duck-typed in Python), so the
embedding gives it its own record type carrying exactly those fields. -/

/-- One input record of the heatmap builder. -/
structure HRec where
  dni : String
  agentName : String
  day : ℕ
  hour : ℕ
  pdpCount : ℕ
  deriving Repr, DecidableEq

/-- The per-agent grouping key (lines 130-135): the DNI, except that the
placeholder `"SIN DNI"` falls back to `"SIN_DNI_" ++ agent_name` to keep
identifier-less agents distinct. -/
def agentKey (r : HRec) : String :=
  if r.dni = "SIN DNI" then "SIN_DNI_" ++ r.agentName else r.dni

/-- `all_days` (line 124): the sorted distinct days of month across all
records, `sorted(set(...))`. -/
def allDays (l : List HRec) : List ℕ :=
  List.insertionSort (· ≤ ·) (firstKeys id (l.map HRec.day))

/-- The observations of agent key `k` on day `d`, in input order. -/
def obsOf (l : List HRec) (k : String) (d : ℕ) : List HRec :=
  l.filter (fun r => agentKey r = k && r.day = d)

/-- The number of distinct hours worked (`len(hours_worked)`, line 172)
by agent key `k` on day `d`. -/
def distinctHours (l : List HRec) (k : String) (d : ℕ) : ℕ :=
  (firstKeys id ((obsOf l k d).map HRec.hour)).length

/-- The cell of agent key `k` at day column `d` (lines 167-185): `none` is
the empty marker `""` for a day with no observation; otherwise the summed
`pdp_count` over the distinct-hour count, rounded to two decimals (with the
guard of line 176 for a zero hour count). -/
def cellValue (l : List HRec) (k : String) (d : ℕ) : Option ℚ :=
  if obsOf l k d = [] then none
  else some
    (if 0 < distinctHours l k d then
      pyRound2 (((obsOf l k d).map HRec.pdpCount).sum / (distinctHours l k d : ℚ))
    else 0)

/-- `daily_pdp_per_hour_values` (lines 164-180): the strictly positive
numeric cells of a row, in column order. -/
def posVals (cells : List (ℕ × Option ℚ)) : List ℚ :=
  cells.filterMap fun p =>
    match p.2 with
    | some v => if 0 < v then some v else none
    | none => none

/-- The `Promedio` of a row (lines 187-193): the two-decimal rounding of the
mean of the positive cells, or `0` when there are none. -/
def promedioOf (vals : List ℚ) : ℚ :=
  if vals = [] then 0 else pyRound2 (vals.sum / (vals.length : ℚ))

/-- One heatmap row: `DNI`, `EJECUTIVO`, the day cells in column order, and
the trailing `Promedio`. -/
structure HRow where
  dni : String
  ejecutivo : String
  cells : List (ℕ × Option ℚ)
  promedio : ℚ
  deriving Repr, DecidableEq

/-- Builds the row of agent key `k` (lines 159-195): `DNI` and `EJECUTIVO`
come from the first record that created the key; every day of `all_days`
gets a cell; the `Promedio` averages the positive cells. -/
def buildRow (l : List HRec) (k : String) : HRow :=
  let cells := (allDays l).map fun d => (d, cellValue l k d)
  { dni := ((l.find? (fun r => agentKey r = k)).map HRec.dni).getD ""
    ejecutivo := ((l.find? (fun r => agentKey r = k)).map HRec.agentName).getD ""
    cells := cells
    promedio := promedioOf (posVals cells) }

/-- Stable descending insertion by `Promedio`: the new row goes after every
row whose `Promedio` is at least its own. -/
def insertByPromedio (x : HRow) : List HRow → List HRow
  | [] => [x]
  | y :: ys => if x.promedio ≤ y.promedio then y :: insertByPromedio x ys else x :: y :: ys

/-- Python's `sorted(result, key=lambda x: x["Promedio"], reverse=True)`
(line 198): a stable sort, descending by `Promedio`, that keeps rows with
equal `Promedio` in their original (first-insertion) order. -/
def sortByPromedio (rows : List HRow) : List HRow :=
  rows.foldl (fun acc x => insertByPromedio x acc) []

/-- `_prepare_heatmap_data`: one row per agent key in first-insertion order,
then the stable descending sort by `Promedio`. -/
def prepareHeatmapData (l : List HRec) : List HRow :=
  sortByPromedio ((firstKeys agentKey l).map (buildRow l))

/-! ## Response DTO and `execute` (`pdp_dto.py`, `process_pdp_data.py` lines 27-85) -/

/-- `PDPResponseDTO` (pdp_dto.py lines 14-35) with the fields relevant to
the no-data behaviour; `__post_init__` turns `errors=None` into `[]`, so
`errors` is a plain list here.  Wall-clock `processing_time_seconds` is not
modelled. -/
structure ResponseDTO where
  totalRecords : ℕ
  uniqueAgents : ℕ
  averageProductivity : ℚ
  excelFilePath : String
  period : String
  errors : List String
  deriving Repr, DecidableEq

/-- `PDPResponseDTO.empty` (pdp_dto.py lines 37-50). -/
def ResponseDTO.empty (errors : List String) : ResponseDTO :=
  ⟨0, 0, 0, "", "", errors⟩

/-- `PDPResponseDTO.with_error` (pdp_dto.py lines 52-65). -/
def ResponseDTO.withError (msg : String) : ResponseDTO :=
  ⟨0, 0, 0, "", "", [msg]⟩

/-- `ProcessPDPDataUseCase.execute` (process_pdp_data.py lines 27-85), as a
function of the two fetched record streams.  Empty call data returns the
explicit empty response of lines 36-42.  Otherwise the use case enriches the
records and, at lines 68-75, constructs `PDPResponseDTO(total_records=...,
total_pdps=..., total_amount=..., ...)` — but the `PDPResponseDTO` dataclass
of pdp_dto.py declares neither `total_pdps` nor `total_amount` (and requires
`unique_agents`, `average_productivity` and `period`, which are not passed),
so that call raises `TypeError`, which the `except` of lines 77-85 converts
into `PDPResponseDTO.with_error("Failed to process PDP data: " + str(e))`.
The interpreter-supplied `TypeError` text is the `typeErrorDetail`
parameter. -/
def executeModel (callData : List CallRec) (pdpRecords : List PDPRec)
    (typeErrorDetail : String) : ResponseDTO :=
  if callData = [] then
    ResponseDTO.empty ["No call data found for the specified period"]
  else
    let _enriched := enrichWithCallData pdpRecords callData
    ResponseDTO.withError ("Failed to process PDP data: " ++ typeErrorDetail)

/-! ## Concrete inputs used by the claim theorems -/

/-- Two productivity rows of one agent and day with activity counts 9 and 3
(the apportionment scenario of spec §8.7). -/
def c1Grp : List PDPRec :=
  [{ email := "a@b.com", date := (2025, 5, 14), pdpCount := 9 },
   { email := "a@b.com", date := (2025, 5, 14), pdpCount := 3 }]

/-- The matched call-time row with 1200 connected seconds. -/
def c1Call : CallRec := { email := "a@b.com", date := (2025, 5, 14), seconds := 1200 }

/-- The gap-filling scenario of spec §8.9: agent X has data for days 5 and 7,
agent Y only for day 5. -/
def c2Scenario : List HRec :=
  [{ dni := "X", agentName := "Agent X", day := 5, hour := 9, pdpCount := 2 },
   { dni := "X", agentName := "Agent X", day := 7, hour := 9, pdpCount := 2 },
   { dni := "Y", agentName := "Agent Y", day := 5, hour := 9, pdpCount := 1 }]

/-- One agent with day cells `1.0`, `1.0` and `round2(1/3) = 0.33`: the mean
of the positive cells is `233/300`, not expressible in two decimals. -/
def c4Input : List HRec :=
  [{ dni := "A", agentName := "Agent A", day := 1, hour := 9, pdpCount := 1 },
   { dni := "A", agentName := "Agent A", day := 2, hour := 9, pdpCount := 1 },
   { dni := "A", agentName := "Agent A", day := 3, hour := 9, pdpCount := 1 },
   { dni := "A", agentName := "Agent A", day := 3, hour := 10, pdpCount := 0 },
   { dni := "A", agentName := "Agent A", day := 3, hour := 11, pdpCount := 0 }]

/-- Two agents with equal `Promedio` whose DNIs appear in descending order in
the input. -/
def c5Input : List HRec :=
  [{ dni := "2", agentName := "Agent B", day := 1, hour := 9, pdpCount := 1 },
   { dni := "1", agentName := "Agent A", day := 1, hour := 9, pdpCount := 1 }]

/-- A group whose summed activity count is zero. -/
def c6Grp : List PDPRec :=
  [{ email := "z@b.com", date := (2025, 5, 20), pdpCount := 0 },
   { email := "z@b.com", date := (2025, 5, 20), pdpCount := 0 }]

/-- The call row matched to the zero-activity group. -/
def c6Call : CallRec := { email := "z@b.com", date := (2025, 5, 20), seconds := 500 }

/-- One agent with day rates `1/6`, `1/6` and `1`: the day cells round to
`0.17`, `0.17`, `1.0`, whose mean rounds to `0.45`, while the rounding of the
mean of the unrounded rates (`4/9`) is `0.44`. -/
def c7Input : List HRec :=
  [{ dni := "A", agentName := "Agent A", day := 1, hour := 9, pdpCount := 1 },
   { dni := "A", agentName := "Agent A", day := 1, hour := 10, pdpCount := 0 },
   { dni := "A", agentName := "Agent A", day := 1, hour := 11, pdpCount := 0 },
   { dni := "A", agentName := "Agent A", day := 1, hour := 12, pdpCount := 0 },
   { dni := "A", agentName := "Agent A", day := 1, hour := 13, pdpCount := 0 },
   { dni := "A", agentName := "Agent A", day := 1, hour := 14, pdpCount := 0 },
   { dni := "A", agentName := "Agent A", day := 2, hour := 9, pdpCount := 1 },
   { dni := "A", agentName := "Agent A", day := 2, hour := 10, pdpCount := 0 },
   { dni := "A", agentName := "Agent A", day := 2, hour := 11, pdpCount := 0 },
   { dni := "A", agentName := "Agent A", day := 2, hour := 12, pdpCount := 0 },
   { dni := "A", agentName := "Agent A", day := 2, hour := 13, pdpCount := 0 },
   { dni := "A", agentName := "Agent A", day := 2, hour := 14, pdpCount := 0 },
   { dni := "A", agentName := "Agent A", day := 3, hour := 9, pdpCount := 1 }]

/-- One agent with 1 activity over 8 distinct hours: the exact rate is
`0.125`, whose Python rounding is `0.12`, not the half-up `0.13`. -/
def c7bInput : List HRec :=
  [{ dni := "B", agentName := "Agent B", day := 1, hour := 9, pdpCount := 1 },
   { dni := "B", agentName := "Agent B", day := 1, hour := 10, pdpCount := 0 },
   { dni := "B", agentName := "Agent B", day := 1, hour := 11, pdpCount := 0 },
   { dni := "B", agentName := "Agent B", day := 1, hour := 12, pdpCount := 0 },
   { dni := "B", agentName := "Agent B", day := 1, hour := 13, pdpCount := 0 },
   { dni := "B", agentName := "Agent B", day := 1, hour := 14, pdpCount := 0 },
   { dni := "B", agentName := "Agent B", day := 1, hour := 15, pdpCount := 0 },
   { dni := "B", agentName := "Agent B", day := 1, hour := 16, pdpCount := 0 }]

/-- A well-formed warehouse row. -/
def c8GoodRow : RawRow := { usuario := "edithtelefonica@gmail.com", fecha := (2025, 5, 14), cantPdp := 9 }

/-- A row whose agent identity is the placeholder `"SIN CORREO"`, which is
not a valid e-mail. -/
def c8BadRow : RawRow := { usuario := "SIN CORREO", fecha := (2025, 5, 14), cantPdp := 3 }

/-- A batch holding one well-formed row followed by one identity-less row. -/
def c8Rows : List RawRow := [c8GoodRow, c8BadRow]

/-- A single call record, so that the call-data fetch is non-empty. -/
def c9Call : CallRec := { email := "a@b.com", date := (2025, 6, 1), seconds := 600 }

/-! ## Lemmas on grouping -/

theorem nodup_firstKeys {α κ : Type} [DecidableEq κ] (key : α → κ) (l : List α) :
    (firstKeys key l).Nodup := by
  induction l with
  | nil => simp [firstKeys]
  | cons x xs ih =>
    simp only [firstKeys, List.nodup_cons]
    refine ⟨fun hmem => ?_, ih.filter _⟩
    rcases List.mem_filter.mp hmem with ⟨-, hne⟩
    simp at hne

theorem mem_firstKeys_iff {α κ : Type} [DecidableEq κ] (key : α → κ) (l : List α)
    (k : κ) : k ∈ firstKeys key l ↔ ∃ a ∈ l, key a = k := by
  induction l with
  | nil => simp [firstKeys]
  | cons x xs ih =>
    simp only [firstKeys, List.mem_cons, List.mem_filter, ih, ne_eq, decide_not,
      Bool.not_eq_true', decide_eq_false_iff_not]
    constructor
    · rintro (rfl | ⟨⟨a, ha, rfl⟩, -⟩)
      · exact ⟨x, Or.inl rfl, rfl⟩
      · exact ⟨a, Or.inr ha, rfl⟩
    · rintro ⟨a, rfl | ha, rfl⟩
      · exact Or.inl rfl
      · by_cases hxa : key a = key x
        · exact Or.inl hxa
        · exact Or.inr ⟨⟨a, ha, rfl⟩, hxa⟩

theorem sum_keyGroup_length {α κ : Type} [DecidableEq κ] (key : α → κ) :
    ∀ (ks : List κ) (l : List α), ks.Nodup → (∀ a ∈ l, key a ∈ ks) →
      (ks.map fun k => (keyGroup key k l).length).sum = l.length := by
  intro ks
  induction ks with
  | nil =>
    intro l _ hcov
    cases l with
    | nil => simp
    | cons a l => exact absurd (hcov a (by simp)) (by simp)
  | cons k ks ih =>
    intro l hnd hcov
    have hk : k ∉ ks := (List.nodup_cons.mp hnd).1
    have hnd' : ks.Nodup := (List.nodup_cons.mp hnd).2
    have hrw : ∀ k' ∈ ks,
        keyGroup key k' l = keyGroup key k' (l.filter fun a => !decide (key a = k)) := by
      intro k' hk'
      have hkk' : k' ≠ k := fun h => hk (h ▸ hk')
      unfold keyGroup
      rw [List.filter_filter]
      refine (List.filter_congr fun a _ => ?_).symm
      by_cases h : key a = k'
      · simp [h, hkk']
      · simp [h]
    have hsum : (ks.map fun k' => (keyGroup key k' l).length).sum
        = (l.filter fun a => !decide (key a = k)).length := by
      have := ih (l.filter fun a => !decide (key a = k)) hnd' ?_
      · rw [← this]
        congr 1
        exact List.map_congr_left fun k' hk' => by rw [hrw k' hk']
      · intro a ha
        rcases List.mem_filter.mp ha with ⟨hal, hne⟩
        rcases List.mem_cons.mp (hcov a hal) with h | h
        · simp [h] at hne
        · exact h
    have hsplit := (List.filter_append_perm (fun a => decide (key a = k)) l).length_eq
    simp only [List.length_append] at hsplit
    rw [List.map_cons, List.sum_cons, hsum]
    unfold keyGroup
    omega

/-! ## Lemmas on the enrichment -/

theorem length_enrichGroup (call : Option CallRec) (grp : List PDPRec) :
    (enrichGroup call grp).length = grp.length := by
  cases call <;> simp [enrichGroup]

theorem length_enrichWithCallData (pdpRecords : List PDPRec) (callData : List CallRec) :
    (enrichWithCallData pdpRecords callData).length = pdpRecords.length := by
  unfold enrichWithCallData
  rw [List.length_flatMap]
  have hmap : (List.map (List.length ∘ fun k =>
        enrichGroup (lookupCall callData k) (keyGroup enrichKeyP k pdpRecords))
        (firstKeys enrichKeyP pdpRecords))
      = (firstKeys enrichKeyP pdpRecords).map
          fun k => (keyGroup enrichKeyP k pdpRecords).length :=
    List.map_congr_left fun k _ => length_enrichGroup _ _
  rw [hmap]
  exact sum_keyGroup_length enrichKeyP _ pdpRecords (nodup_firstKeys _ _)
    fun a ha => (mem_firstKeys_iff enrichKeyP pdpRecords _).mpr ⟨a, ha, rfl⟩

/-! ## Lemmas on rounding and apportionment -/

theorem ratFloor_eq_floor (q : ℚ) : ratFloor q = ⌊q⌋ := by
  rw [Rat.floor_def, ratFloor, Int.fdiv_eq_ediv _ (by positivity)]

theorem rndHalfEven_dist (y : ℚ) :
    y - 1 / 2 ≤ (rndHalfEven y : ℚ) ∧ (rndHalfEven y : ℚ) ≤ y + 1 / 2 := by
  have hfl : (ratFloor y : ℚ) ≤ y ∧ y < (ratFloor y : ℚ) + 1 := by
    rw [ratFloor_eq_floor]
    exact ⟨Int.floor_le y, Int.lt_floor_add_one y⟩
  unfold rndHalfEven
  by_cases h1 : y - (ratFloor y : ℚ) < 1 / 2
  · rw [if_pos h1]
    constructor <;> [linarith [hfl.1, hfl.2]; linarith [hfl.1]]
  · rw [if_neg h1]
    by_cases h2 : (1 : ℚ) / 2 < y - (ratFloor y : ℚ)
    · rw [if_pos h2]
      push_cast
      constructor <;> [linarith [hfl.2]; linarith [hfl.2]]
    · rw [if_neg h2]
      have heq : y - (ratFloor y : ℚ) = 1 / 2 := by linarith
      by_cases h3 : ratFloor y % 2 = 0
      · rw [if_pos h3]
        constructor <;> linarith
      · rw [if_neg h3]
        push_cast
        constructor <;> linarith

theorem log2Fuel_correct :
    ∀ fuel n : ℕ, 1 ≤ n → n ≤ fuel →
      2 ^ log2Fuel fuel n ≤ n ∧ n < 2 ^ (log2Fuel fuel n + 1) := by
  intro fuel
  induction fuel with
  | zero => intro n h1 h2; omega
  | succ fuel ih =>
    intro n h1 h2
    rw [log2Fuel]
    by_cases h : 2 ≤ n
    · rw [if_pos h]
      have hh1 : 1 ≤ n / 2 := by omega
      have hh2 : n / 2 ≤ fuel := by omega
      obtain ⟨hl, hr⟩ := ih (n / 2) hh1 hh2
      rw [pow_succ] at hr
      constructor
      · rw [pow_succ]
        omega
      · rw [pow_succ, pow_succ]
        omega
    · rw [if_neg h]
      have : n = 1 := by omega
      subst this
      norm_num

theorem natLog2_correct (n : ℕ) (h : 1 ≤ n) :
    2 ^ natLog2 n ≤ n ∧ n < 2 ^ (natLog2 n + 1) :=
  log2Fuel_correct n n h le_rfl

theorem floorLog2_correct (q : ℚ) (hq : 0 < q) :
    (2 : ℚ) ^ floorLog2 q ≤ q ∧ q < (2 : ℚ) ^ (floorLog2 q + 1) := by
  have hnum : 0 < q.num := Rat.num_pos.mpr hq
  have ha1 : 1 ≤ q.num.toNat := by omega
  have hb1 : 1 ≤ q.den := q.pos
  obtain ⟨hal, har⟩ := natLog2_correct q.num.toNat ha1
  obtain ⟨hbl, hbr⟩ := natLog2_correct q.den hb1
  set la := natLog2 q.num.toNat with hla
  set lb := natLog2 q.den with hlb
  have hdenQ : (0 : ℚ) < (q.den : ℚ) := by exact_mod_cast hb1
  have hq_eq : q = (q.num.toNat : ℚ) / (q.den : ℚ) := by
    have h2 : ((q.num.toNat : ℕ) : ℚ) = ((q.num : ℤ) : ℚ) := by
      exact_mod_cast Int.toNat_of_nonneg (le_of_lt hnum)
    rw [h2]
    exact (Rat.num_div_den q).symm
  have hA0 : (0 : ℚ) < (q.num.toNat : ℚ) := by exact_mod_cast ha1
  have hzn : ∀ n : ℕ, (2 : ℚ) ^ (n : ℤ) = ((2 ^ n : ℕ) : ℚ) := fun n => by
    rw [zpow_natCast]; push_cast; ring
  have hup : q < (2 : ℚ) ^ ((la : ℤ) - lb + 1) := by
    have h1 : q < ((2 ^ (la + 1) : ℕ) : ℚ) / ((2 ^ lb : ℕ) : ℚ) := by
      rw [hq_eq]
      have hden2 : (0 : ℚ) < ((2 ^ lb : ℕ) : ℚ) := by positivity
      have hstep1 : (q.num.toNat : ℚ) / (q.den : ℚ)
          ≤ (q.num.toNat : ℚ) / ((2 ^ lb : ℕ) : ℚ) := by
        apply div_le_div_of_nonneg_left (le_of_lt hA0) hden2
        exact_mod_cast hbl
      have hstep2 : (q.num.toNat : ℚ) / ((2 ^ lb : ℕ) : ℚ)
          < ((2 ^ (la + 1) : ℕ) : ℚ) / ((2 ^ lb : ℕ) : ℚ) := by
        apply div_lt_div_of_pos_right ?_ hden2
        exact_mod_cast har
      exact lt_of_le_of_lt hstep1 hstep2
    have hexp : ((la + 1 : ℕ) : ℤ) - (lb : ℤ) = (la : ℤ) - lb + 1 := by
      push_cast; ring
    have h2 : ((2 ^ (la + 1) : ℕ) : ℚ) / ((2 ^ lb : ℕ) : ℚ)
        = (2 : ℚ) ^ ((la : ℤ) - lb + 1) := by
      rw [← hzn, ← hzn, ← zpow_sub₀ (by norm_num : (2 : ℚ) ≠ 0), hexp]
    rw [h2] at h1
    exact h1
  have hlow : (2 : ℚ) ^ ((la : ℤ) - lb - 1) < q := by
    have h1 : ((2 ^ la : ℕ) : ℚ) / ((2 ^ (lb + 1) : ℕ) : ℚ) < q := by
      rw [hq_eq]
      have hstep1 : ((2 ^ la : ℕ) : ℚ) / ((2 ^ (lb + 1) : ℕ) : ℚ)
          < ((2 ^ la : ℕ) : ℚ) / (q.den : ℚ) := by
        apply div_lt_div_of_pos_left (by positivity) hdenQ
        exact_mod_cast hbr
      have hstep2 : ((2 ^ la : ℕ) : ℚ) / (q.den : ℚ)
          ≤ (q.num.toNat : ℚ) / (q.den : ℚ) := by
        gcongr
      exact lt_of_lt_of_le hstep1 hstep2
    have hexp : ((la : ℕ) : ℤ) - ((lb + 1 : ℕ) : ℤ) = (la : ℤ) - lb - 1 := by
      push_cast; ring
    have h2 : ((2 ^ la : ℕ) : ℚ) / ((2 ^ (lb + 1) : ℕ) : ℚ)
        = (2 : ℚ) ^ ((la : ℤ) - lb - 1) := by
      rw [← hzn, ← hzn, ← zpow_sub₀ (by norm_num : (2 : ℚ) ≠ 0), hexp]
    rw [h2] at h1
    exact h1
  rw [floorLog2]
  by_cases hif : (2 : ℚ) ^ ((la : ℤ) - lb) ≤ q
  · rw [if_pos hif]
    exact ⟨hif, hup⟩
  · rw [if_neg hif]
    constructor
    · exact le_of_lt hlow
    · have h3 : (la : ℤ) - lb - 1 + 1 = (la : ℤ) - lb := by ring
      rw [h3]
      exact lt_of_not_le hif

theorem rnd53_err (x : ℚ) (hx : 0 ≤ x) :
    x * (1 - 1 / 2 ^ 53) ≤ rnd53 x ∧ rnd53 x ≤ x * (1 + 1 / 2 ^ 53) := by
  rcases eq_or_lt_of_le hx with heq | hpos
  · rw [← heq]
    simp [rnd53]
  · have hne : x ≠ 0 := ne_of_gt hpos
    rw [rnd53, if_neg hne, abs_of_pos hpos]
    set e := floorLog2 x with he
    obtain ⟨hel, her⟩ := floorLog2_correct x hpos
    set u : ℚ := (2 : ℚ) ^ (e - 52) with hu
    have hupos : 0 < u := zpow_pos (by norm_num) _
    obtain ⟨hr1, hr2⟩ := rndHalfEven_dist (x / u)
    have hxu : x / u * u = x := div_mul_cancel₀ x (ne_of_gt hupos)
    have hb1 : x - (1 / 2) * u ≤ (rndHalfEven (x / u) : ℚ) * u := by
      have h := mul_le_mul_of_nonneg_right hr1 (le_of_lt hupos)
      rw [sub_mul, hxu] at h
      exact h
    have hb2 : (rndHalfEven (x / u) : ℚ) * u ≤ x + (1 / 2) * u := by
      have h := mul_le_mul_of_nonneg_right hr2 (le_of_lt hupos)
      rw [add_mul, hxu] at h
      exact h
    have hud : (1 / 2) * u ≤ x * (1 / 2 ^ 53) := by
      have h1 : (1 / 2) * u = (2 : ℚ) ^ e * (1 / 2 ^ 53) := by
        rw [hu, zpow_sub₀ (by norm_num : (2 : ℚ) ≠ 0) e 52]
        norm_num
        ring
      rw [h1]
      have h2 : (0 : ℚ) < 1 / 2 ^ 53 := by norm_num
      exact mul_le_mul_of_nonneg_right hel (le_of_lt h2)
    constructor
    · calc x * (1 - 1 / 2 ^ 53) = x - x * (1 / 2 ^ 53) := by ring
        _ ≤ x - (1 / 2) * u := by linarith
        _ ≤ _ := hb1
    · calc (rndHalfEven (x / u) : ℚ) * u ≤ x + (1 / 2) * u := hb2
        _ ≤ x + x * (1 / 2 ^ 53) := by linarith
        _ = x * (1 + 1 / 2 ^ 53) := by ring

theorem rnd53_nonneg (x : ℚ) (hx : 0 ≤ x) : 0 ≤ rnd53 x := by
  have h := (rnd53_err x hx).1
  nlinarith

theorem ratFloor_toNat_le (p : ℚ) (hp : 0 ≤ p) : ((ratFloor p).toNat : ℚ) ≤ p := by
  by_cases hf : 0 ≤ ratFloor p
  · have h1 : (((ratFloor p).toNat : ℤ) : ℚ) = ((ratFloor p : ℤ) : ℚ) := by
      exact_mod_cast Int.toNat_of_nonneg hf
    have h2 : ((ratFloor p : ℤ) : ℚ) ≤ p := by
      rw [ratFloor_eq_floor]
      exact Int.floor_le p
    calc ((ratFloor p).toNat : ℚ) = (((ratFloor p).toNat : ℤ) : ℚ) := by push_cast; ring
      _ = ((ratFloor p : ℤ) : ℚ) := h1
      _ ≤ p := h2
  · have h1 : (ratFloor p).toNat = 0 := Int.toNat_of_nonpos (le_of_not_le hf)
    rw [h1]
    simpa using hp

theorem sum_apportion_le (S : ℕ) (cnts : List ℕ) (hS : S ≤ 2 ^ 50) :
    (cnts.map fun c => apportion S c cnts.sum).sum ≤ S := by
  by_cases htot : 0 < cnts.sum
  · have htQ : (0 : ℚ) < (cnts.sum : ℚ) := by exact_mod_cast htot
    have hδ0 : (0 : ℚ) < 1 / 2 ^ 53 := by norm_num
    have hδ1 : (1 : ℚ) / 2 ^ 53 < 1 := by norm_num
    have hterm : ∀ c ∈ cnts, ((apportion S c cnts.sum : ℕ) : ℚ)
        ≤ (S : ℚ) * ((c : ℚ) / (cnts.sum : ℚ)) * (1 + 1 / 2 ^ 53) ^ 3 := by
      intro c _
      rw [apportion, if_pos htot]
      have hct0 : (0 : ℚ) ≤ (c : ℚ) / (cnts.sum : ℚ) := by positivity
      have hSQ0 : (0 : ℚ) ≤ (S : ℚ) := by positivity
      obtain ⟨hw1, hw2⟩ := rnd53_err _ hct0
      obtain ⟨hs1, hs2⟩ := rnd53_err _ hSQ0
      have hw0 : 0 ≤ rnd53 ((c : ℚ) / (cnts.sum : ℚ)) := rnd53_nonneg _ hct0
      have hs0 : 0 ≤ rnd53 ((S : ℕ) : ℚ) := rnd53_nonneg _ hSQ0
      have hp0 : (0 : ℚ) ≤ rnd53 ((S : ℕ) : ℚ) * rnd53 ((c : ℚ) / (cnts.sum : ℚ)) :=
        mul_nonneg hs0 hw0
      obtain ⟨hp1, hp2⟩ := rnd53_err _ hp0
      have hfl : ((ratFloor (rnd53 (rnd53 ((S : ℕ) : ℚ)
            * rnd53 ((c : ℚ) / (cnts.sum : ℚ))))).toNat : ℚ)
          ≤ rnd53 (rnd53 ((S : ℕ) : ℚ) * rnd53 ((c : ℚ) / (cnts.sum : ℚ))) :=
        ratFloor_toNat_le _ (rnd53_nonneg _ hp0)
      refine hfl.trans ?_
      calc rnd53 (rnd53 ((S : ℕ) : ℚ) * rnd53 ((c : ℚ) / (cnts.sum : ℚ)))
          ≤ rnd53 ((S : ℕ) : ℚ) * rnd53 ((c : ℚ) / (cnts.sum : ℚ)) * (1 + 1 / 2 ^ 53) :=
            hp2
        _ ≤ ((S : ℚ) * (1 + 1 / 2 ^ 53))
              * ((c : ℚ) / (cnts.sum : ℚ) * (1 + 1 / 2 ^ 53)) * (1 + 1 / 2 ^ 53) := by
            apply mul_le_mul_of_nonneg_right _ (by linarith)
            exact mul_le_mul hs2 hw2 hw0 (by positivity)
        _ = (S : ℚ) * ((c : ℚ) / (cnts.sum : ℚ)) * (1 + 1 / 2 ^ 53) ^ 3 := by ring
    have hsum : (((cnts.map fun c => apportion S c cnts.sum).sum : ℕ) : ℚ)
        ≤ (S : ℚ) * (1 + 1 / 2 ^ 53) ^ 3 := by
      have h1 : ((cnts.map fun c => apportion S c cnts.sum).map (Nat.cast : ℕ → ℚ)).sum
          ≤ (cnts.map fun c : ℕ =>
              (S : ℚ) * ((c : ℚ) / (cnts.sum : ℚ)) * (1 + 1 / 2 ^ 53) ^ 3).sum := by
        rw [List.map_map]
        exact List.sum_le_sum fun c hc => hterm c hc
      have h2 : (cnts.map fun c : ℕ =>
            (S : ℚ) * ((c : ℚ) / (cnts.sum : ℚ)) * (1 + 1 / 2 ^ 53) ^ 3).sum
          = (S : ℚ) * (1 + 1 / 2 ^ 53) ^ 3 := by
        have h3 : (fun c : ℕ =>
              (S : ℚ) * ((c : ℚ) / (cnts.sum : ℚ)) * (1 + 1 / 2 ^ 53) ^ 3)
            = fun c : ℕ =>
              ((S : ℚ) * (1 + 1 / 2 ^ 53) ^ 3 / (cnts.sum : ℚ)) * (c : ℚ) := by
          funext c
          field_simp
          ring
        rw [h3, List.sum_map_mul_left, ← Nat.cast_list_sum]
        exact div_mul_cancel₀ _ (ne_of_gt htQ)
      calc (((cnts.map fun c => apportion S c cnts.sum).sum : ℕ) : ℚ)
          = ((cnts.map fun c => apportion S c cnts.sum).map (Nat.cast : ℕ → ℚ)).sum :=
            Nat.cast_list_sum _
        _ ≤ _ := h1
        _ = _ := h2
    have hbound : (S : ℚ) * (1 + 1 / 2 ^ 53) ^ 3 < (S : ℚ) + 1 := by
      have hSQ : (S : ℚ) ≤ 2 ^ 50 := by exact_mod_cast hS
      have hkey : (S : ℚ) * (1 + 1 / 2 ^ 53) ^ 3
          = (S : ℚ) + (S : ℚ) * (3 / 2 ^ 53 + 3 / 2 ^ 106 + 1 / 2 ^ 159) := by
        ring
      have h4 : (S : ℚ) * (3 / 2 ^ 53 + 3 / 2 ^ 106 + 1 / 2 ^ 159)
          ≤ (2 ^ 50 : ℚ) * (3 / 2 ^ 53 + 3 / 2 ^ 106 + 1 / 2 ^ 159) :=
        mul_le_mul_of_nonneg_right hSQ (by norm_num)
      have h5 : (2 ^ 50 : ℚ) * (3 / 2 ^ 53 + 3 / 2 ^ 106 + 1 / 2 ^ 159) < 1 := by
        norm_num
      rw [hkey]
      linarith
    have hfinal : (cnts.map fun c => apportion S c cnts.sum).sum < S + 1 := by
      exact_mod_cast hsum.trans_lt hbound
    omega
  · have h0 : cnts.sum = 0 := Nat.eq_zero_of_not_pos htot
    have h1 : (cnts.map fun c => apportion S c cnts.sum).sum = 0 := by
      rw [h0]
      simp [apportion]
    omega

/-! ## Lemmas on the stable descending sort -/

theorem perm_insertByPromedio (x : HRow) (l : List HRow) :
    (insertByPromedio x l).Perm (x :: l) := by
  induction l with
  | nil => simp [insertByPromedio]
  | cons y ys ih =>
    by_cases hle : x.promedio ≤ y.promedio
    · rw [insertByPromedio, if_pos hle]
      exact (ih.cons y).trans (List.Perm.swap x y ys)
    · rw [insertByPromedio, if_neg hle]

theorem pairwise_insertByPromedio (x : HRow) (l : List HRow)
    (h : l.Pairwise fun a b => b.promedio ≤ a.promedio) :
    (insertByPromedio x l).Pairwise fun a b => b.promedio ≤ a.promedio := by
  induction l with
  | nil => simp [insertByPromedio]
  | cons y ys ih =>
    rcases List.pairwise_cons.mp h with ⟨hy, hys⟩
    by_cases hle : x.promedio ≤ y.promedio
    · rw [insertByPromedio, if_pos hle]
      refine List.pairwise_cons.mpr ⟨?_, ih hys⟩
      intro z hz
      rcases List.mem_cons.mp ((perm_insertByPromedio x ys).mem_iff.mp hz) with rfl | hz
      · exact hle
      · exact hy z hz
    · rw [insertByPromedio, if_neg hle]
      push_neg at hle
      refine List.pairwise_cons.mpr ⟨?_, h⟩
      intro z hz
      rcases List.mem_cons.mp hz with rfl | hz
      · exact le_of_lt hle
      · exact le_trans (hy z hz) (le_of_lt hle)

theorem filter_insertByPromedio (q : ℚ) (x : HRow) (l : List HRow)
    (h : l.Pairwise fun a b => b.promedio ≤ a.promedio) :
    (insertByPromedio x l).filter (fun r => r.promedio = q)
      = l.filter (fun r => r.promedio = q)
          ++ if x.promedio = q then [x] else [] := by
  induction l with
  | nil => by_cases hxq : x.promedio = q <;> simp [insertByPromedio, hxq]
  | cons y ys ih =>
    rcases List.pairwise_cons.mp h with ⟨hy, hys⟩
    by_cases hle : x.promedio ≤ y.promedio
    · rw [insertByPromedio, if_pos hle]
      rw [List.filter_cons, List.filter_cons, ih hys]
      by_cases hyq : y.promedio = q <;> simp [hyq]
    · rw [insertByPromedio, if_neg hle]
      push_neg at hle
      by_cases hxq : x.promedio = q
      · have hnil : (y :: ys).filter (fun r => r.promedio = q) = [] := by
          rw [List.filter_eq_nil_iff]
          intro z hz
          have hzy : z.promedio ≤ y.promedio := by
            rcases List.mem_cons.mp hz with rfl | hz
            · exact le_refl _
            · exact hy z hz
          have : z.promedio < q := hxq ▸ lt_of_le_of_lt hzy hle
          simpa using ne_of_lt this
        rw [List.filter_cons, hnil]
        simp [hxq]
      · rw [List.filter_cons]
        simp [hxq]

theorem perm_sortByPromedio_aux :
    ∀ (rows acc : List HRow),
      (rows.foldl (fun acc x => insertByPromedio x acc) acc).Perm (acc ++ rows) := by
  intro rows
  induction rows with
  | nil => intro acc; simp
  | cons x xs ih =>
    intro acc
    rw [List.foldl_cons]
    exact (ih _).trans
      (((perm_insertByPromedio x acc).append_right xs).trans List.perm_middle.symm)

theorem perm_sortByPromedio (rows : List HRow) : (sortByPromedio rows).Perm rows := by
  simpa using perm_sortByPromedio_aux rows []

theorem pairwise_sortByPromedio_aux :
    ∀ (rows acc : List HRow), (acc.Pairwise fun a b => b.promedio ≤ a.promedio) →
      ((rows.foldl (fun acc x => insertByPromedio x acc) acc).Pairwise
        fun a b => b.promedio ≤ a.promedio) := by
  intro rows
  induction rows with
  | nil => intro acc h; exact h
  | cons x xs ih => intro acc h; exact ih _ (pairwise_insertByPromedio x acc h)

theorem pairwise_sortByPromedio (rows : List HRow) :
    (sortByPromedio rows).Pairwise fun a b => b.promedio ≤ a.promedio :=
  pairwise_sortByPromedio_aux rows [] (by simp)

theorem filter_sortByPromedio_aux (q : ℚ) :
    ∀ (rows acc : List HRow), (acc.Pairwise fun a b => b.promedio ≤ a.promedio) →
      (rows.foldl (fun acc x => insertByPromedio x acc) acc).filter
          (fun r => r.promedio = q)
        = acc.filter (fun r => r.promedio = q) ++ rows.filter (fun r => r.promedio = q) := by
  intro rows
  induction rows with
  | nil => intro acc _; simp
  | cons x xs ih =>
    intro acc h
    rw [List.foldl_cons, ih _ (pairwise_insertByPromedio x acc h),
      filter_insertByPromedio q x acc h, List.filter_cons]
    by_cases hxq : x.promedio = q <;> simp [hxq]

theorem filter_sortByPromedio (q : ℚ) (rows : List HRow) :
    (sortByPromedio rows).filter (fun r => r.promedio = q)
      = rows.filter (fun r => r.promedio = q) := by
  simpa using filter_sortByPromedio_aux q rows [] (by simp)

/-! ## Lemmas on the heatmap -/

theorem mem_prepareHeatmapData (l : List HRec) (row : HRow) :
    row ∈ prepareHeatmapData l ↔ ∃ k ∈ firstKeys agentKey l, row = buildRow l k := by
  unfold prepareHeatmapData
  rw [(perm_sortByPromedio _).mem_iff, List.mem_map]
  constructor
  · rintro ⟨k, hk, rfl⟩; exact ⟨k, hk, rfl⟩
  · rintro ⟨k, hk, rfl⟩; exact ⟨k, hk, rfl⟩

theorem sorted_allDays (l : List HRec) : (allDays l).Pairwise (· < ·) := by
  have h1 : (allDays l).Pairwise (· ≤ ·) :=
    List.sorted_insertionSort (· ≤ ·) (firstKeys id (l.map HRec.day))
  have h2 : (allDays l).Nodup :=
    (List.perm_insertionSort (· ≤ ·) _).symm.nodup (nodup_firstKeys id _)
  exact (h1.and h2).imp fun hab => lt_of_le_of_ne hab.1 hab.2

theorem mem_allDays (l : List HRec) (d : ℕ) :
    d ∈ allDays l ↔ ∃ r ∈ l, r.day = d := by
  unfold allDays
  rw [(List.perm_insertionSort _ _).mem_iff, mem_firstKeys_iff id]
  constructor
  · rintro ⟨a, ha, rfl⟩
    rcases List.mem_map.mp ha with ⟨r, hr, rfl⟩
    exact ⟨r, hr, rfl⟩
  · rintro ⟨r, hr, rfl⟩
    exact ⟨r.day, List.mem_map.mpr ⟨r, hr, rfl⟩, rfl⟩

theorem cells_buildRow (l : List HRec) (k : String) :
    (buildRow l k).cells = (allDays l).map fun d => (d, cellValue l k d) := rfl

theorem promedio_buildRow (l : List HRec) (k : String) :
    (buildRow l k).promedio = promedioOf (posVals (buildRow l k).cells) := rfl

theorem cellValue_eq_none_iff (l : List HRec) (k : String) (d : ℕ) :
    cellValue l k d = none ↔ obsOf l k d = [] := by
  unfold cellValue
  by_cases h : obsOf l k d = [] <;> simp [h]

theorem posVals_append (l₁ l₂ : List (ℕ × Option ℚ)) :
    posVals (l₁ ++ l₂) = posVals l₁ ++ posVals l₂ :=
  List.filterMap_append _ _ _

theorem posVals_skip (c : ℕ × Option ℚ)
    (hc : c.2 = none ∨ ∃ v, c.2 = some v ∧ v ≤ 0) : posVals [c] = [] := by
  rcases hc with h | ⟨v, h, hv⟩
  · simp [posVals, h]
  · simp [posVals, h, not_lt.mpr hv]

/-! ## Claim theorems -/

set_option maxRecDepth 8000 in
/-- C1 counterexample: the exact value of `S * (pdp_count / total)` at
`S = 600`, counts 11 of 15, is the integer `440`, so its truncation is 440 —
but the program computes the weight and the product in IEEE doubles and
apportions `int(600 * (11/15)) = 439`; likewise `int(1800 * (13/24)) = 974`
against the exact `975`. -/
theorem apportionment_not_exact_floor_cex :
    apportion 600 11 15 = 439
    ∧ (600 : ℚ) * ((11 : ℚ) / 15) = 440
    ∧ apportion 1800 13 24 = 974
    ∧ (1800 : ℚ) * ((13 : ℚ) / 24) = 975
    ∧ (439 : ℕ) ≠ 440 :=
  ⟨by with_unfolding_all decide, by with_unfolding_all decide,
   by with_unfolding_all decide, by with_unfolding_all decide,
   by with_unfolding_all decide⟩

set_option maxRecDepth 8000 in
/-- C1 (amended): each member of a matched group is apportioned
`int(total_seconds * (pdp_count / total_pdps))` evaluated in IEEE doubles
(which can fall below the exact truncation); still, for any total connected
seconds of realistic magnitude (at most `2^50`), every apportioned value is
at most `S` and the group's apportioned values sum to at most `S`; the
9/3-split of `S = 1200` is exact in binary64 and gives 900 and 300. -/
theorem apportionment_conservation_bounds (grp : List PDPRec) (c : CallRec)
    (hS : c.seconds ≤ 2 ^ 50) :
    ((enrichGroup (some c) grp).map PDPRec.connectedSeconds
      = grp.map fun r => some (apportion c.seconds r.pdpCount (grp.map PDPRec.pdpCount).sum))
    ∧ (∀ r ∈ grp, apportion c.seconds r.pdpCount (grp.map PDPRec.pdpCount).sum ≤ c.seconds)
    ∧ ((grp.map fun r => apportion c.seconds r.pdpCount (grp.map PDPRec.pdpCount).sum).sum
      ≤ c.seconds)
    ∧ ((enrichGroup (some c1Call) c1Grp).map PDPRec.connectedSeconds
      = [some 900, some 300]) := by
  have h3 : ((grp.map fun r =>
      apportion c.seconds r.pdpCount (grp.map PDPRec.pdpCount).sum).sum ≤ c.seconds) := by
    have hs := sum_apportion_le c.seconds (grp.map PDPRec.pdpCount) hS
    simpa [List.map_map, Function.comp] using hs
  refine ⟨?_, fun r hr => ?_, h3, ?_⟩
  · simp [enrichGroup, withConnectedTime, List.map_map, Function.comp]
  · exact le_trans
      (List.single_le_sum (fun x _ => Nat.zero_le x) _
        (List.mem_map.mpr ⟨r, hr, rfl⟩)) h3
  · with_unfolding_all decide

set_option maxRecDepth 8000 in
/-- Witness for C1 at the concrete 9/3-split with 1200 seconds. -/
theorem apportionment_conservation_bounds_witness :
    c1Call.seconds ≤ 2 ^ 50
    ∧ (c1Grp.map fun r =>
        apportion c1Call.seconds r.pdpCount (c1Grp.map PDPRec.pdpCount).sum).sum
      ≤ c1Call.seconds :=
  ⟨by with_unfolding_all decide,
   (apportionment_conservation_bounds c1Grp c1Call (by with_unfolding_all decide)).2.2.1⟩

/-- C6: a matched group whose summed activity count is zero has every member
apportioned exactly zero connected seconds; the guard `if total_pdps > 0`
makes the enrichment total, so no division by zero can occur. -/
theorem zero_activity_safety (grp : List PDPRec) (c : CallRec)
    (h : (grp.map PDPRec.pdpCount).sum = 0) :
    (enrichGroup (some c) grp).map PDPRec.connectedSeconds = grp.map fun _ => some 0 := by
  simp only [enrichGroup, List.map_map]
  refine List.map_congr_left fun r _ => ?_
  simp [Function.comp, withConnectedTime, h, apportion]

/-- Witness for C6 at a two-member group of zero activity counts. -/
theorem zero_activity_safety_witness :
    (c6Grp.map PDPRec.pdpCount).sum = 0
    ∧ (enrichGroup (some c6Call) c6Grp).map PDPRec.connectedSeconds
      = c6Grp.map fun _ => some 0 :=
  ⟨by with_unfolding_all decide,
   zero_activity_safety c6Grp c6Call (by with_unfolding_all decide)⟩

/-- C10: enrichment emits exactly one output record per input productivity
record; an unmatched group passes through unchanged (connected seconds left
as they were, i.e. null), and each member of a matched group yields one
record carrying its apportioned connected time. -/
theorem enrichment_preserves_multiplicity (pdpRecords : List PDPRec)
    (callData : List CallRec) :
    (enrichWithCallData pdpRecords callData).length = pdpRecords.length
    ∧ (∀ grp : List PDPRec, enrichGroup none grp = grp)
    ∧ (∀ (c : CallRec) (grp : List PDPRec),
        enrichGroup (some c) grp = grp.map fun r =>
          withConnectedTime r (apportion c.seconds r.pdpCount (grp.map PDPRec.pdpCount).sum)) :=
  ⟨length_enrichWithCallData _ _, fun _ => rfl, fun _ _ => rfl⟩

/-- C3: the derived per-hour rate is zero when the connected seconds are
null or zero, equals `activity_count / (connected_seconds / 3600)` otherwise,
and 18 activities over 1800 seconds give rate 36. -/
theorem rate_definition_and_null_zero (a s : ℕ) (hs : 0 < s) :
    computeRate a none = 0
    ∧ computeRate a (some 0) = 0
    ∧ computeRate a (some s) = (a : ℚ) / ((s : ℚ) / 3600)
    ∧ computeRate 18 (some 1800) = 36 := by
  refine ⟨rfl, by simp [computeRate], ?_, by with_unfolding_all decide⟩
  simp [computeRate, Nat.pos_iff_ne_zero.mp hs]

/-- Witness for C3 at 18 activities over 1800 connected seconds. -/
theorem rate_definition_and_null_zero_witness :
    0 < 1800 ∧ computeRate 18 (some 1800) = (18 : ℚ) / ((1800 : ℚ) / 3600) :=
  ⟨by decide, (rate_definition_and_null_zero 18 1800 (by decide)).2.2.1⟩

set_option maxRecDepth 8000 in
/-- C2: the day columns of the heatmap are exactly the strictly ascending
distinct days of the input; every row carries exactly that column set; a day
with no observation for an agent holds the empty marker (`none`, the empty
string), never zero; and in the X/Y scenario Y's day-7 cell is empty. -/
theorem heatmap_column_completeness (l : List HRec) (row : HRow)
    (hrow : row ∈ prepareHeatmapData l) :
    (allDays l).Pairwise (· < ·)
    ∧ (∀ d, d ∈ allDays l ↔ ∃ r ∈ l, r.day = d)
    ∧ row.cells.map Prod.fst = allDays l
    ∧ (∀ k d, cellValue l k d = none ↔ obsOf l k d = [])
    ∧ (prepareHeatmapData c2Scenario).map HRow.cells
      = [[(5, some 2), (7, some 2)], [(5, some 1), (7, none)]] := by
  refine ⟨sorted_allDays l, mem_allDays l, ?_, fun k d => cellValue_eq_none_iff l k d,
    by with_unfolding_all decide⟩
  rcases (mem_prepareHeatmapData l row).mp hrow with ⟨k, -, rfl⟩
  rw [cells_buildRow, List.map_map]
  have hid : (Prod.fst ∘ fun d => (d, cellValue l k d)) = id := rfl
  rw [hid, List.map_id]

set_option maxRecDepth 8000 in
/-- Witness for C2 at the X/Y gap-filling scenario. -/
theorem heatmap_column_completeness_witness :
    (buildRow c2Scenario "Y") ∈ prepareHeatmapData c2Scenario
    ∧ (buildRow c2Scenario "Y").cells.map Prod.fst = allDays c2Scenario :=
  ⟨by with_unfolding_all decide,
   (heatmap_column_completeness c2Scenario _ (by with_unfolding_all decide)).2.2.1⟩

set_option maxRecDepth 8000 in
/-- C4 counterexample: for the agent of `c4Input` the positive day cells are
`1`, `1` and `0.33`, whose mean `233/300` differs from the `Promedio` `0.78`
that the heatmap computes (the code rounds the mean to two decimals), so the
`Promedio` does not equal the mean of the positive cells. -/
theorem promedio_not_exact_mean_cex :
    (prepareHeatmapData c4Input).map HRow.promedio = [78 / 100]
    ∧ (prepareHeatmapData c4Input).map (fun r => posVals r.cells) = [[1, 1, 33 / 100]]
    ∧ ((1 : ℚ) + 1 + 33 / 100) / 3 ≠ 78 / 100 :=
  ⟨by with_unfolding_all decide, by with_unfolding_all decide,
   by with_unfolding_all decide⟩

/-- C4 (amended): the `Promedio` of a heatmap row is the two-decimal
rounding of the mean of its populated, strictly positive cells; inserting or
removing an empty-marker or non-positive cell never changes it; a row with no
positive cells has `Promedio` zero. -/
theorem promedio_excludes_empty_and_nonpositive (l : List HRec) (row : HRow)
    (cs₁ cs₂ : List (ℕ × Option ℚ)) (c : ℕ × Option ℚ)
    (hrow : row ∈ prepareHeatmapData l)
    (hc : c.2 = none ∨ ∃ v, c.2 = some v ∧ v ≤ 0) :
    row.promedio = promedioOf (posVals row.cells)
    ∧ promedioOf (posVals (cs₁ ++ c :: cs₂)) = promedioOf (posVals (cs₁ ++ cs₂))
    ∧ promedioOf [] = 0
    ∧ (∀ vals : List ℚ, vals ≠ [] →
        promedioOf vals = pyRound2 (vals.sum / (vals.length : ℚ))) := by
  refine ⟨?_, ?_, rfl, fun vals hv => by simp [promedioOf, hv]⟩
  · rcases (mem_prepareHeatmapData l row).mp hrow with ⟨k, -, rfl⟩
    exact promedio_buildRow l k
  · have hsplit : posVals (cs₁ ++ c :: cs₂) = posVals cs₁ ++ posVals cs₂ := by
      have h1 : cs₁ ++ c :: cs₂ = cs₁ ++ [c] ++ cs₂ := by simp
      rw [h1, posVals_append, posVals_append, posVals_skip c hc, List.append_nil]
    rw [hsplit, ← posVals_append]

set_option maxRecDepth 8000 in
/-- Witness for C4 at the `c4Input` row and an inserted empty cell. -/
theorem promedio_excludes_empty_and_nonpositive_witness :
    ((buildRow c4Input "A") ∈ prepareHeatmapData c4Input
      ∧ (((3 : ℕ), (none : Option ℚ)).2 = none
        ∨ ∃ v, ((3 : ℕ), (none : Option ℚ)).2 = some v ∧ v ≤ 0))
    ∧ promedioOf (posVals ([((1 : ℕ), some (1 : ℚ))] ++ (3, none) :: [(2, some (1 / 2))]))
      = promedioOf (posVals ([((1 : ℕ), some (1 : ℚ))] ++ [(2, some (1 / 2))])) :=
  ⟨⟨by with_unfolding_all decide, Or.inl rfl⟩,
   (promedio_excludes_empty_and_nonpositive c4Input (buildRow c4Input "A")
      [((1 : ℕ), some (1 : ℚ))] [(2, some (1 / 2))] (3, none)
      (by with_unfolding_all decide) (Or.inl rfl)).2.1⟩

set_option maxRecDepth 8000 in
/-- C5 counterexample: in `c5Input` both agents have `Promedio` 1, yet the
output keeps the input order of DNIs `["2", "1"]`, which is not ascending, so
ties are not broken by ascending agent id. -/
theorem row_order_tie_not_by_dni_cex :
    (prepareHeatmapData c5Input).map HRow.dni = ["2", "1"]
    ∧ (prepareHeatmapData c5Input).map HRow.promedio = [1, 1] :=
  ⟨by with_unfolding_all decide, by with_unfolding_all decide⟩

/-- C5 (amended): the heatmap rows are in non-increasing `Promedio` order,
and rows of equal `Promedio` keep their first-insertion order (the sort is
stable), which is deterministic on identical input. -/
theorem row_order_sorted_and_stable (l : List HRec) :
    ((prepareHeatmapData l).Pairwise fun a b => b.promedio ≤ a.promedio)
    ∧ ∀ q : ℚ, (prepareHeatmapData l).filter (fun r => r.promedio = q)
        = ((firstKeys agentKey l).map (buildRow l)).filter (fun r => r.promedio = q) :=
  ⟨pairwise_sortByPromedio _, fun q => filter_sortByPromedio q _⟩

set_option maxRecDepth 8000 in
/-- C7 counterexample: the `Promedio` of `c7Input` is `0.45`, while the
two-decimal rounding of the mean of the unrounded day rates is `0.44` — day
cells are rounded before averaging; and the cell `round2(1/8)` of `c7bInput`
is `0.12`, not the half-up `0.13` — Python rounds half to even. -/
theorem rounding_not_half_up_cex :
    (prepareHeatmapData c7Input).map HRow.promedio = [45 / 100]
    ∧ pyRound2 ((1 / 6 + 1 / 6 + 1) / 3) = 44 / 100
    ∧ ((45 : ℚ) / 100) ≠ 44 / 100
    ∧ cellValue c7bInput "B" 1 = some (12 / 100)
    ∧ ((12 : ℚ) / 100) ≠ 13 / 100 :=
  ⟨by with_unfolding_all decide, by with_unfolding_all decide,
   by with_unfolding_all decide, by with_unfolding_all decide,
   by with_unfolding_all decide⟩

/-- C7 (amended): every populated heatmap cell and every `Promedio` is an
integer multiple of `1/100` (a two-decimal quantity produced by Python's
half-even `round`), and the `Promedio` is the rounding of the mean of the
already-rounded positive day cells, not of the unrounded rates. -/
theorem rounding_two_decimals_discipline (l : List HRec) (row : HRow) (d : ℕ)
    (oc : Option ℚ) (hrow : row ∈ prepareHeatmapData l) (hcell : (d, oc) ∈ row.cells) :
    (∀ v, oc = some v → ∃ n : ℤ, v = (n : ℚ) / 100)
    ∧ (∃ m : ℤ, row.promedio = (m : ℚ) / 100)
    ∧ row.promedio = promedioOf (posVals row.cells) := by
  rcases (mem_prepareHeatmapData l row).mp hrow with ⟨k, -, rfl⟩
  refine ⟨?_, ?_, promedio_buildRow l k⟩
  · intro v hv
    rw [cells_buildRow] at hcell
    rcases List.mem_map.mp hcell with ⟨d₀, -, hd₀⟩
    have hoc : oc = cellValue l k d₀ := congrArg Prod.snd hd₀.symm
    rw [hv] at hoc
    unfold cellValue at hoc
    by_cases hobs : obsOf l k d₀ = []
    · rw [if_pos hobs] at hoc; exact absurd hoc.symm (by simp)
    · rw [if_neg hobs] at hoc
      rcases Option.some.inj hoc with rfl
      by_cases hdh : 0 < distinctHours l k d₀
      · rw [if_pos hdh]; exact ⟨rndHalfEven (100 * _), rfl⟩
      · rw [if_neg hdh]; exact ⟨0, by norm_num⟩
  · rw [promedio_buildRow l k]
    unfold promedioOf
    by_cases hvals : posVals (buildRow l k).cells = []
    · rw [if_pos hvals]; exact ⟨0, by norm_num⟩
    · rw [if_neg hvals]; exact ⟨rndHalfEven (100 * _), rfl⟩

set_option maxRecDepth 8000 in
/-- Witness for C7 at the day-1 cell of `c7Input`. -/
theorem rounding_two_decimals_discipline_witness :
    ((buildRow c7Input "A") ∈ prepareHeatmapData c7Input
      ∧ ((1 : ℕ), some ((17 : ℚ) / 100)) ∈ (buildRow c7Input "A").cells)
    ∧ ∃ m : ℤ, (buildRow c7Input "A").promedio = (m : ℚ) / 100 :=
  ⟨⟨by with_unfolding_all decide, by with_unfolding_all decide⟩,
   (rounding_two_decimals_discipline c7Input _ 1 (some (17 / 100))
      (by with_unfolding_all decide) (by with_unfolding_all decide)).2.1⟩

/-- C8 counterexample: a batch holding a well-formed row and a row whose
agent identity is the placeholder `"SIN CORREO"` fails wholesale at the
mapping layer with the `ValueError` of `Email.__post_init__` — identity-less
records are not tolerated and no name-based fallback key rescues them. -/
theorem invalid_email_batch_fails_cex :
    mapRowsToEntities c8Rows = Except.error "Invalid email format: SIN CORREO" := by
  with_unfolding_all rfl

/-- C8 (amended): an agent identity that does not match the e-mail regex is
rejected when the `Email` value object is constructed, so any batch holding
such a row fails as a whole during entity mapping; the only name-based
fallback key in the code is the heatmap's `"SIN_DNI_" + agent_name` grouping
key, which keeps placeholder-DNI agents distinct. -/
theorem invalid_email_rejected (s : String) (pre post : List RawRow) (row : RawRow)
    (hrow : row.usuario = s) (hinvalid : emailValid s = false) :
    (∃ msg, mkEmail s = Except.error msg)
    ∧ (∃ msg, mapRowsToEntities (pre ++ row :: post) = Except.error msg)
    ∧ (∀ r₁ r₂ : HRec, r₁.dni = "SIN DNI" → r₂.dni = "SIN DNI" →
        r₁.agentName ≠ r₂.agentName → agentKey r₁ ≠ agentKey r₂) := by
  have hmk : ∃ msg, mkEmail s = Except.error msg := by
    unfold mkEmail
    by_cases h0 : s = ""
    · exact ⟨"Email cannot be empty", by rw [if_pos h0]⟩
    · refine ⟨"Invalid email format: " ++ s, ?_⟩
      rw [if_neg h0, if_neg (by simp [hinvalid])]
  refine ⟨hmk, ?_, ?_⟩
  · rcases hmk with ⟨msg, hmsg⟩
    have hbad : mapRowToEntity row = Except.error msg := by
      unfold mapRowToEntity
      rw [hrow, hmsg]
      rfl
    induction pre with
    | nil => exact ⟨msg, by simp [mapRowsToEntities, hbad]⟩
    | cons r rs ih =>
      rcases ih with ⟨m, hm⟩
      cases hmr : mapRowToEntity r with
      | error e => exact ⟨e, by simp [mapRowsToEntities, hmr]⟩
      | ok p => exact ⟨m, by simp [mapRowsToEntities, hmr, hm]⟩
  · intro r₁ r₂ h₁ h₂ hne heq
    apply hne
    rw [agentKey, agentKey, if_pos h₁, if_pos h₂] at heq
    have hdata := congrArg String.data heq
    rw [String.data_append, String.data_append] at hdata
    have := List.append_cancel_left hdata
    cases hn₁ : r₁.agentName with
    | mk d₁ =>
      cases hn₂ : r₂.agentName with
      | mk d₂ =>
        rw [hn₁, hn₂] at this
        exact congrArg String.mk this

/-- Witness for C8 at the `"SIN CORREO"` placeholder row. -/
theorem invalid_email_rejected_witness :
    (c8BadRow.usuario = "SIN CORREO" ∧ emailValid "SIN CORREO" = false)
    ∧ ∃ msg, mapRowsToEntities ([c8GoodRow] ++ c8BadRow :: []) = Except.error msg :=
  ⟨⟨rfl, by with_unfolding_all decide⟩,
   (invalid_email_rejected "SIN CORREO" [c8GoodRow] [] c8BadRow rfl
      (by with_unfolding_all decide)).2.1⟩

/-- C9 counterexample: with call data present and zero productivity records,
`execute` does not return the explicit empty/no-data response — the normal
path's `PDPResponseDTO(...)` call does not match the dataclass fields of
pdp_dto.py, so the `except` handler produces the generic failure response,
whose message does not reference the period. -/
theorem zero_productivity_no_nodata_cex :
    executeModel [c9Call] [] "TypeError"
      = ResponseDTO.withError "Failed to process PDP data: TypeError"
    ∧ (executeModel [c9Call] [] "TypeError").errors
      ≠ ["No call data found for the specified period"] :=
  ⟨by with_unfolding_all rfl, by with_unfolding_all decide⟩

/-- C9 (amended): only an empty call-data fetch yields the explicit empty
response, with `total_records = 0` and the non-empty errors list
`["No call data found for the specified period"]`; with call data present
(in particular with zero productivity records) `execute` instead returns the
generic `with_error` response of the exception handler. -/
theorem no_call_data_empty_response (pdpRecords : List PDPRec)
    (callData : List CallRec) (detail : String) (hne : callData ≠ []) :
    executeModel [] pdpRecords detail
      = ResponseDTO.empty ["No call data found for the specified period"]
    ∧ (executeModel [] pdpRecords detail).totalRecords = 0
    ∧ (executeModel [] pdpRecords detail).errors ≠ []
    ∧ executeModel callData pdpRecords detail
      = ResponseDTO.withError ("Failed to process PDP data: " ++ detail) := by
  refine ⟨rfl, rfl, by simp [executeModel, ResponseDTO.empty], ?_⟩
  simp [executeModel, hne]

/-- Witness for C9 at a single call record and no productivity records. -/
theorem no_call_data_empty_response_witness :
    ([c9Call] ≠ ([] : List CallRec))
    ∧ executeModel [c9Call] [] "unexpected keyword argument"
      = ResponseDTO.withError ("Failed to process PDP data: "
          ++ "unexpected keyword argument") :=
  ⟨by simp, (no_call_data_empty_response [] [c9Call] "unexpected keyword argument"
      (by simp)).2.2.2⟩

end PDP
